import Mathlib

/-! # Verification of the agent routing and tool-approval orchestration layer

A shallow embedding of the core of the Seeknimbly HR repository: the agent
classifier (`lib/agentRouter`), the recruiting tool registry
(`lib/agent-tools.ts`), the approval gate and continuation codec of
`POST /api/agent/stream/continue`, the fresh-turn orchestrator of
`POST /api/agent/stream`, and the HR compliance streaming route
`POST /api/hr/stream`.  Pure functions of the source become Lean functions;
the external generation capability and the (stub) tool dispatcher enter the
route models as explicit oracle arguments; the successive events of a model
stream become an explicit list.  Theorems at the end settle the spec claims.
-/

namespace Seeknimbly

/-! ## JavaScript string trimming

`String.prototype.trim` removes leading and trailing whitespace.  We model
the whitespace class by its ASCII part (space, tab, newline, carriage
return, vertical tab, form feed), which covers every string the routes
build. -/

def jsWS (c : Char) : Bool :=
  c = ' ' || c = '\t' || c = '\n' || c = '\r' || c = '\x0b' || c = '\x0c'

def trimLeftChars (l : List Char) : List Char :=
  l.dropWhile jsWS

def trimRightChars (l : List Char) : List Char :=
  (l.reverse.dropWhile jsWS).reverse

def jsTrim (s : String) : String :=
  String.mk (trimRightChars (trimLeftChars s.data))

theorem dropWhile_idem (p : Char → Bool) (l : List Char) :
    (l.dropWhile p).dropWhile p = l.dropWhile p := by
  induction l with
  | nil => rfl
  | cons a l ih =>
    by_cases h : p a
    · simp [List.dropWhile, h, ih]
    · simp [List.dropWhile, h]

theorem head_false_of_dropWhile_fixed (a : Char) (t : List Char)
    (hx : (a :: t).dropWhile jsWS = a :: t) : jsWS a = false := by
  by_cases h : jsWS a
  · exfalso
    simp [List.dropWhile, h] at hx
    have hle : (t.dropWhile jsWS).length ≤ t.length := (List.dropWhile_sublist _).length_le
    rw [hx] at hle
    simp at hle
  · exact eq_false_of_ne_true h

theorem trimLeft_trimRight (x : List Char) (hx : x.dropWhile jsWS = x) :
    trimLeftChars (trimRightChars x) = trimRightChars x := by
  cases x with
  | nil => rfl
  | cons a t =>
    have ha : jsWS a = false := head_false_of_dropWhile_fixed a t hx
    simp only [trimRightChars, trimLeftChars, List.reverse_cons]
    rw [List.dropWhile_append]
    cases hc : t.reverse.dropWhile jsWS with
    | nil => simp [List.dropWhile, ha]
    | cons b r => simp [List.dropWhile, ha]

theorem trimRightChars_idem (l : List Char) :
    trimRightChars (trimRightChars l) = trimRightChars l := by
  simp [trimRightChars, dropWhile_idem]

theorem jsTrim_idem (s : String) : jsTrim (jsTrim s) = jsTrim s := by
  cases s with
  | mk data =>
    have hy : (trimLeftChars data).dropWhile jsWS = trimLeftChars data :=
      dropWhile_idem jsWS data
    simp only [jsTrim]
    rw [trimLeft_trimRight _ hy, trimRightChars_idem]

/-! ## Tool registry and approval gate (`src/lib/agent-tools.ts`)

The registry holds six tools.  The approval partition
(`TOOLS_REQUIRING_APPROVAL` / `toolRequiresApproval`) is exported by
`@/lib/agent-tools` — it is imported by `POST /api/agent/stream/continue`
and pinned down exactly by `src/lib/agent-tools.test.ts` — but its defining
lines are absent from the provided copy of `src/lib/agent-tools.ts`. -/

/-- Modelled from the spec: the fixed approval-requiring set
`\x7bsend_outreach, schedule_interview, update_ats\x7d` (§3 Approval
Requirement); the definition of `TOOLS_REQUIRING_APPROVAL` is missing from
the provided `src/lib/agent-tools.ts`, which only its test file and the
continue route (callers) reference.  The test file asserts this exact
list. -/
def TOOLS_REQUIRING_APPROVAL : List String :=
  ["send_outreach", "schedule_interview", "update_ats"]

/-- Modelled from the spec: `requiresApproval(toolName) → bool`, "a pure
static lookup against the fixed partition" (§4.3); the definition of
`toolRequiresApproval` is missing from the provided
`src/lib/agent-tools.ts` (only its tests, declarations and callers are
present). -/
def toolRequiresApproval (name : String) : Bool :=
  TOOLS_REQUIRING_APPROVAL.contains name

/-- Declared description of the `screen_resume` tool
(`src/lib/agent-tools.ts`, `AGENT_TOOLS`). -/
def screenResumeDescription : String :=
  "Score a resume against a job specification. Pass either file_id (OpenAI file) or resume_text. Returns score 0-100 and a short summary."

/-- Arguments the `screen_resume` handler reads from its untyped argument
mapping; a missing or wrong-typed field is `none`. -/
structure ScreenResumeArgs where
  file_id : Option String := none
  resume_text : Option String := none
  job_title : Option String := none
  job_requirements : Option String := none

/-- The structured payload that the `screen_resume` case of `executeTool`
JSON-stringifies (`src/lib/agent-tools.ts:148-157`). -/
structure ScreenResumeResult where
  message : String
  score : ℤ
  summary : String
  job_title : String
  deriving Repr, DecidableEq

/-- The `screen_resume` case of `executeTool`
(`src/lib/agent-tools.ts:148-157`):
`const score = 60 + Math.floor(Math.random() * 35)`.  The draw of
`Math.random()` — a number in `[0, 1)` — is passed in as the rational
`q`. -/
def screenResume (args : ScreenResumeArgs) (q : ℚ) : ScreenResumeResult :=
  let job := args.job_title.getD "role"
  let score : ℤ := 60 + ⌊q * 35⌋
  { message := "[Stub] Resume screening uses mock scoring."
    score := score
    summary := "Candidate appears to match " ++ job ++ " at a " ++
      toString score ++ "/100 fit. (Phase 2 will use real LLM scoring.)"
    job_title := job }

/-! ## Agent classifier (`lib/agentRouter`, first document of
`src/unnamed/part_000`) -/

/-- The closed set of compliance-chat agent identifiers (`AgentId`). -/
inductive AgentId where
  | general_hr_assistant
  | compliance_agent
  | policy_doc_agent
  | risk_controls_agent
  deriving Repr, DecidableEq

/-- The `RouterResult` shape of `lib/agentRouter`. -/
structure RouterResult where
  agent : AgentId
  reason : Option String := none
  required_questions : Option (List String) := none
  deriving Repr, DecidableEq

def COMPLIANCE_KEYWORDS : List String :=
  ["compliance check", "audit", "soc2", "iso", "iso9001", "controls",
   "gap analysis", "policy review", "handbook", "employee handbook",
   "hr compliance", "legal", "risk register"]

def POLICY_DOC_PHRASES : List String :=
  ["handbook say", "document say", "policy say", "what does our",
   "what does the handbook", "what does the doc", "what does the policy",
   "what does the document"]

def RISK_CONTROLS_PHRASES : List String :=
  ["map to iso", "map to iso 9001", "soc2 controls", "iso 9001 controls",
   "controls mapping", "map this process to"]

/-- JavaScript `String.prototype.includes`: substring containment. -/
def jsIncludes (hay sub : String) : Bool :=
  (List.range (hay.data.length + 1)).any fun i => sub.data.isPrefixOf (hay.data.drop i)

/-- Model of `matchAny(text, phrases)` of `lib/agentRouter`. -/
def matchAny (text : String) (phrases : List String) : Bool :=
  phrases.any fun p => jsIncludes text.toLower p

/-- Model of `heuristics(message, hasDocument)` of `lib/agentRouter`: `none` models
the TS `null` (inconclusive, fall through to the LLM tier). -/
def heuristics (message : String) (hasDocument : Bool) : Option AgentId :=
  if !hasDocument then some .general_hr_assistant
  else
    let lower := message.toLower
    let hasComplianceKeyword := COMPLIANCE_KEYWORDS.any fun k => jsIncludes lower k
    if !hasComplianceKeyword then none
    else if matchAny message POLICY_DOC_PHRASES then some .policy_doc_agent
    else if matchAny message RISK_CONTROLS_PHRASES then some .risk_controls_agent
    else some .compliance_agent

/-- A `\x7brole, content\x7d` history item. -/
structure HistMsg where
  role : String
  content : String
  deriving Repr, DecidableEq

/-- JavaScript `history.slice(-10)`: the last ten items. -/
def sliceLastTen (l : List HistMsg) : List HistMsg :=
  l.drop (l.length - 10)

/-- Model of `chooseAgent` of `lib/agentRouter`.  The asynchronous LLM fallback tier
(`llmRouter`, which performs a network call) enters as the oracle `llm`;
`llmRouter` itself never throws and always yields a `RouterResult`. -/
def chooseAgent (llm : String → List HistMsg → Bool → RouterResult)
    (message : String) (history : List HistMsg) (hasDocument : Bool) :
    RouterResult :=
  match heuristics message hasDocument with
  | some a => { agent := a }
  | none => llm message (sliceLastTen history) hasDocument

/-! ## Conversation transcript and continuation codec
(`POST /api/agent/stream/continue`, second document of
`src/unnamed/part_000`) -/

/-- A tool call as serialized by the continue route:
`\x7bid, type: "function", function: \x7bname, arguments\x7d\x7d`.  The
constant `type` discriminator is dropped; `arguments` is the raw JSON
argument string produced by the generation capability. -/
structure ToolCall where
  id : String
  name : String
  arguments : String
  deriving Repr, DecidableEq

/-- The `ChatCompletionMessageParam` values as the routes construct them.  For an
assistant message, `content` is `string | null` and `toolCalls = none`
models an absent `tool_calls` field (`some l` a present one, which the
orchestrator only creates with `l ≠ []`). -/
inductive ChatMessage where
  | system (content : String)
  | user (content : String)
  | assistant (content : Option String) (toolCalls : Option (List ToolCall))
  | tool (tool_call_id : String) (content : String)
  deriving Repr, DecidableEq

/-- One element of the decoded `payload.messages` array: the JSON object
shapes that `serializableMessages` emits and `parseSerializedMessages`
consumes.  `none` fields model absent JSON fields. -/
structure RawMsg where
  role : String
  content : Option String := none
  tool_calls : Option (List ToolCall) := none
  tool_call_id : Option String := none
  deriving Repr, DecidableEq

/-- Model of `parseSerializedMessages` (continue route, `src/unnamed/part_000:160-192`)
applied to one element.  Where the source performs an unchecked cast that
would yield `undefined` (a `tool` message without `content` or
`tool_call_id`), the absent field is read as `""`; the orchestrator never
serializes such a message. -/
def parseSerializedMessage (r : RawMsg) : ChatMessage :=
  if r.role = "system" then .system (r.content.getD "")
  else if r.role = "user" then .user (r.content.getD "")
  else if r.role = "assistant" then
    match r.tool_calls with
    | some tcs =>
      if tcs.length ≠ 0 then .assistant r.content (some tcs)
      else .assistant (some (r.content.getD "")) none
    | none => .assistant (some (r.content.getD "")) none
  else if r.role = "tool" then .tool (r.tool_call_id.getD "") (r.content.getD "")
  else .user (r.content.getD "")

def parseSerializedMessages (raw : List RawMsg) : List ChatMessage :=
  raw.map parseSerializedMessage

/-- Model of `serializableMessages` (continue route, `src/unnamed/part_000:328-344`)
applied to one message.  In the source an assistant message with a present
(`truthy`) `tool_calls` array keeps `content` and its `tool_calls` with
`name`/`arguments` defaulted (`?? ""`, `?? "\x7b\x7d"` — our `ToolCall`
fields are total, so the defaults never fire); every other message
serializes as `\x7brole, content ?? ""\x7d`, and a `tool` message as
`\x7brole, tool_call_id, content\x7d`. -/
def serializableMessage : ChatMessage → RawMsg
  | .assistant c (some tcs) =>
    { role := "assistant", content := c, tool_calls := some tcs }
  | .assistant c none => { role := "assistant", content := some (c.getD "") }
  | .tool id c => { role := "tool", content := some c, tool_call_id := some id }
  | .system c => { role := "system", content := some c }
  | .user c => { role := "user", content := some c }

def serializableMessages (ms : List ChatMessage) : List RawMsg :=
  ms.map serializableMessage

/-- The transcripts the orchestrator can produce (§3 Conversation
Transcript): an assistant message either carries a string content and no
`tool_calls` field, or a non-empty `tool_calls` list. -/
def msgWF : ChatMessage → Bool
  | .assistant c none => c.isSome
  | .assistant _ (some tcs) => !tcs.isEmpty
  | _ => true

def transcriptWF (ms : List ChatMessage) : Bool :=
  ms.all msgWF

/-- The `AgentParams` record (`lib/agent-prompts`), the turn parameters carried by a
continuation token. -/
structure AgentParams where
  job_title : Option String := none
  location : Option String := none
  experience_level : Option String := none
  max_candidates : Option Nat := none
  jurisdiction : Option String := none
  deriving Repr, DecidableEq

/-- The well-shaped continuation payload `\x7bmessages, params\x7d`, as
`serializableMessages` emits it when pausing (the token itself is
`base64(JSON.stringify(payload))`, a reversible encoding of this
structure).  A token decoded over the wire need not have this shape: the
full decode boundary, including JSON-decodable payloads that are not
well-shaped and make the handler throw, is modelled by `DecodedJson` and
`continueRouteJson` below. -/
structure ContinuationPayload where
  messages : List RawMsg
  params : AgentParams
  deriving Repr, DecidableEq

/-! ## Stream events and the generation-capability interface -/

inductive StepStatus where
  | active
  | done
  deriving Repr, DecidableEq

/-- The `PendingCall` shape `\x7bid, name, args\x7d`; `args` is kept as the raw JSON
argument string (the source parses it defensively into an untyped mapping,
defaulting to `\x7b\x7d`, before echoing it in the event). -/
structure PendingCall where
  id : String
  name : String
  args : String
  deriving Repr, DecidableEq

/-- The NDJSON `StreamEvent` union of the three streaming routes.  The
`pending_tool_calls` continuation token is carried as its decoded
structured payload. -/
inductive StreamEvent where
  | step (id : String) (label : String) (status : StepStatus)
  | text (delta : String)
  | done (text : String)
  | error (error : String)
  | pending_tool_calls (calls : List PendingCall) (continuation : ContinuationPayload)
  deriving Repr, DecidableEq

def StreamEvent.isTerminal : StreamEvent → Bool
  | .done _ => true
  | .error _ => true
  | .pending_tool_calls _ _ => true
  | _ => false

/-- Exactly one terminal event, in final position: the §3 Stream Event
invariant for one emitted event list. -/
def terminalOnceLast (evs : List StreamEvent) : Bool :=
  match evs.getLast? with
  | none => false
  | some e => e.isTerminal && (evs.dropLast.all fun x => !x.isTerminal)

/-- One awaited `openai.chat.completions.create` outcome, as the routes
observe it: the call throws, the response carries no message
(`!choice?.message`), or it carries a message with `string | null` content
and a (possibly empty) list of tool calls. -/
inductive GenOutcome where
  | throwErr (message : String)
  | noMessage
  | msg (content : Option String) (toolCalls : List ToolCall)
  deriving Repr, DecidableEq

/-- Model of `sendDone` of the two agent routes: `text.trim() || "Done."`. -/
def agentDoneText (t : String) : String :=
  if jsTrim t = "" then "Done." else jsTrim t

/-! ## `POST /api/agent/stream/continue` (second document of
`src/unnamed/part_000`)

The route model takes the outcome of decoding the continuation token, the
approved-id list, the tool dispatcher as an oracle `exec` (absorbing the
defensive `JSON.parse` of the argument string and the awaited
`executeTool`, whose result the route treats as an opaque string) and the
single generation outcome of the resumed round. -/

/-- The string `JSON.stringify(\x7bmessage: "User declined to run this tool."\x7d)`. -/
def declineNotice : String :=
  "\x7b\"message\":\"User declined to run this tool.\"\x7d"

/-- Result of the pre-stream pending-call resolution loop
(`src/unnamed/part_000:249-267`). -/
structure ResolveResult where
  executed : List (String × String)
  appended : List ChatMessage
  deriving Repr, DecidableEq

/-- The pending-call resolution loop (`src/unnamed/part_000:249-267`): for
each tool call of the last assistant message, a call whose name does not
require approval is skipped (`continue`); an approval-requiring call is
executed when its id is approved and otherwise answered with the decline
notice, and a `tool` message with the outcome is appended. -/
def resolvePending (tcs : List ToolCall) (approved : List String)
    (exec : String → String → String) : ResolveResult :=
  match tcs with
  | [] => { executed := [], appended := [] }
  | tc :: rest =>
    let tail := resolvePending rest approved exec
    if !toolRequiresApproval tc.name then tail
    else if approved.contains tc.id then
      { executed := (tc.name, tc.arguments) :: tail.executed
        appended := .tool tc.id (exec tc.name tc.arguments) :: tail.appended }
    else
      { executed := tail.executed
        appended := .tool tc.id declineNotice :: tail.appended }

/-- The guard on the decoded transcript
(`src/unnamed/part_000:244-247`): the last message must be an `assistant`
message with a present, non-empty `tool_calls` list; returns those calls. -/
def lastPendingCheck (ms : List ChatMessage) : Option (List ToolCall) :=
  match ms.getLast? with
  | some (.assistant _ (some tcs)) => if tcs.length ≠ 0 then some tcs else none
  | _ => none

/-- State threaded through the tool-call pass of the resumed round
(`src/unnamed/part_000:303-325`). -/
structure ContinuePass where
  events : List StreamEvent
  executed : List (String × String)
  msgs : List ChatMessage
  approvalCalls : List PendingCall
  deriving Repr, DecidableEq

/-- The tool-call pass of the resumed round: approval-requiring calls are
collected into `approvalCalls`; the rest run immediately between a pair of
`step` events, their results appended as `tool` messages. -/
def continueToolPass (exec : String → String → String)
    (msgs0 : List ChatMessage) : List ToolCall → ContinuePass
  | [] => { events := [], executed := [], msgs := msgs0, approvalCalls := [] }
  | tc :: rest =>
    if toolRequiresApproval tc.name then
      let tail := continueToolPass exec msgs0 rest
      { tail with approvalCalls := ⟨tc.id, tc.name, tc.arguments⟩ :: tail.approvalCalls }
    else
      let result := exec tc.name tc.arguments
      let tail := continueToolPass exec (msgs0 ++ [.tool tc.id result]) rest
      { tail with
        events := .step tc.name ("Running " ++ tc.name ++ "…") .active ::
          .step tc.name tc.name .done :: tail.events
        executed := (tc.name, tc.arguments) :: tail.executed }

/-- The streamed part of the continue route
(`src/unnamed/part_000:271-369`), given the transcript after pending-call
resolution: one generation round, then either a further tool pass ending in
a fresh `pending_tool_calls` pause, or a terminal `done`/`error`. -/
def continueStreamEvents (exec : String → String → String)
    (params : AgentParams) (msgs : List ChatMessage) (gen : GenOutcome) :
    List StreamEvent × List (String × String) :=
  match gen with
  | .throwErr m => ([.error m], [])
  | .noMessage => ([.error "No message in response."], [])
  | .msg content tcs =>
    let lastContent := content.getD ""
    if tcs.length ≠ 0 then
      let msgs1 := msgs ++ [.assistant content (some tcs)]
      let pass := continueToolPass exec msgs1 tcs
      if pass.approvalCalls.length ≠ 0 then
        (pass.events ++
          [.pending_tool_calls pass.approvalCalls
            ⟨serializableMessages pass.msgs, params⟩],
          pass.executed)
      else (pass.events ++ [.done (agentDoneText lastContent)], pass.executed)
    else ([.done (agentDoneText lastContent)], [])

/-- Overall outcome of a continue request: a pre-stream client-error JSON
response (no stream is opened, no generation call made, no tool run), or
the streamed events together with the log of every executed tool call. -/
inductive ContinueOutcome where
  | reject (status : Nat) (error : String)
  | stream (events : List StreamEvent) (executed : List (String × String))
  deriving Repr, DecidableEq

/-- The core of `POST /api/agent/stream/continue` after body validation
and rate limiting, over an already *well-shaped* decoded payload
(`decoded = none` models an undecodable or non-JSON token): parse the
serialized transcript, validate its last message, resolve the pending
calls, then stream the resumed round.  This is the route as exercised with
the payloads the orchestrator itself serializes; the full HTTP decode
boundary — on which a JSON-decodable but ill-shaped payload makes the
handler throw an uncaught `TypeError` instead of answering 400 — is
`continueRouteJson` below, which agrees with this function on well-shaped
payloads (`continueRouteJson_coherent`). -/
def continueRoute (decoded : Option ContinuationPayload) (approved : List String)
    (exec : String → String → String) (gen : GenOutcome) : ContinueOutcome :=
  match decoded with
  | none => .reject 400 "Invalid continuation payload."
  | some payload =>
    let msgs := parseSerializedMessages payload.messages
    match lastPendingCheck msgs with
    | none => .reject 400 "Continuation has no pending tool calls."
    | some tcs =>
      let res := resolvePending tcs approved exec
      let msgs1 := msgs ++ res.appended
      let streamed := continueStreamEvents exec payload.params msgs1 gen
      .stream streamed.1 (res.executed ++ streamed.2)

/-! ## The full decode boundary of the continue route

Only the base64 decode and `JSON.parse` are inside the try/catch of
`src/unnamed/part_000:232-237`.  Everything after — `payload.params` at
line 240, `parseSerializedMessages(payload.messages)` at line 243 (whose
body runs `raw.map` at line 161 and `toolCalls.map` with
`t.function.name` at lines 174-177) — runs unguarded on the cast, unchecked
decoded value, and throws an uncaught `TypeError` on a JSON-decodable but
structurally invalid payload; the framework then answers with a 500
response, not the 400 validation error.  The following types model a
decoded JSON value exactly as far as the handler observes it. -/

/-- One element of an assistant `tool_calls` array in a decoded token:
`malformed` is an element on which `t.id` or `t.function.name`
(`src/unnamed/part_000:174-177`) throws — a `null` element or one whose
`function` field is not an object; every non-throwing element is
represented by its (route-defaulted) observable fields. -/
inductive ToolCallItemJson where
  | malformed
  | ok (tc : ToolCall)
  deriving Repr, DecidableEq

/-- The `tool_calls` field of a decoded assistant message, as the check
`if (toolCalls?.length)` and the following `toolCalls.map` observe it:
absent, `null`, or any value with a falsy `.length` (including an empty
array or string) takes the no-tool-calls branch; a non-array value with a
truthy `.length` (for example a non-empty string, or an object with a
`length` field) reaches `toolCalls.map` and throws. -/
inductive ToolCallsJson where
  | missingOrFalsyLength
  | truthyNonArray
  | array (items : List ToolCallItemJson)
  deriving Repr, DecidableEq

/-- A non-`null` element of a decoded `messages` array, by its observable
fields; a missing or non-string `role` compares unequal to every role
literal and falls to the default branch. -/
structure RawMsgJson where
  role : Option String := none
  content : Option String := none
  tool_calls : ToolCallsJson := .missingOrFalsyLength
  tool_call_id : Option String := none
  deriving Repr, DecidableEq

/-- One element of a decoded `messages` array: `nullItem` is a JSON
`null`, on which the property read `r.role` throws. -/
inductive MsgItemJson where
  | nullItem
  | item (m : RawMsgJson)
  deriving Repr, DecidableEq

/-- The `messages` field of a decoded object: absent, `null`, or any
non-array value makes `raw.map` (`src/unnamed/part_000:161`, reached from
line 243) throw. -/
inductive MessagesJson where
  | notArrayOrMissing
  | array (items : List MsgItemJson)
  deriving Repr, DecidableEq

/-- A successfully JSON-parsed continuation token, as far as the handler
observes it.  `jsNull` is the JSON value `null` (the read
`payload.params` at line 240 throws); `nonObjectValue` is any other
non-object JSON value — number, string, boolean, or top-level array — on
which `payload.params` and `payload.messages` are `undefined`, so `params`
defaults and `raw.map` throws; `obj` is an object with its `params`
projection (`payload.params ?? \x7b\x7d`; a non-object `params` value has
no observable typed fields and behaves as the default). -/
inductive DecodedJson where
  | jsNull
  | nonObjectValue
  | obj (messages : MessagesJson) (params : AgentParams)
  deriving Repr, DecidableEq

/-- From `ToolCallItemJson` to the parsed call: `none` is the thrown
`TypeError`. -/
def ToolCallItemJson.toCall : ToolCallItemJson → Option ToolCall
  | .malformed => none
  | .ok tc => some tc

/-- Left-to-right traversal with failure: the semantics of a JavaScript
`Array.map` whose callback may throw — the first exception aborts the
whole call. -/
def optionTraverse {α β : Type} (f : α → Option β) : List α → Option (List β)
  | [] => some []
  | a :: l =>
    match f a with
    | none => none
    | some b =>
      match optionTraverse f l with
      | none => none
      | some bs => some (b :: bs)

/-- Model of `parseSerializedMessages` applied to one element of an arbitrary
decoded `messages` array (`src/unnamed/part_000:160-192`), with `none` for
the uncaught `TypeError` paths: a `null` element, and an assistant element
whose `tool_calls` has a truthy `.length` but is not a well-formed array
of calls. -/
def parseMsgItemJson : MsgItemJson → Option ChatMessage
  | .nullItem => none
  | .item m =>
    if m.role = some "system" then some (.system (m.content.getD ""))
    else if m.role = some "user" then some (.user (m.content.getD ""))
    else if m.role = some "assistant" then
      match m.tool_calls with
      | .missingOrFalsyLength => some (.assistant (some (m.content.getD "")) none)
      | .truthyNonArray => none
      | .array items =>
        if items.length ≠ 0 then
          match optionTraverse ToolCallItemJson.toCall items with
          | none => none
          | some tcs => some (.assistant m.content (some tcs))
        else some (.assistant (some (m.content.getD "")) none)
    else if m.role = some "tool" then
      some (.tool (m.tool_call_id.getD "") (m.content.getD ""))
    else some (.user (m.content.getD ""))

/-- Model of `parseSerializedMessages` over an arbitrary decoded `messages` array;
`none` is the first thrown `TypeError` (JavaScript `Array.map` evaluates
left to right and the exception aborts the whole call). -/
def parseSerializedMessagesJson (items : List MsgItemJson) :
    Option (List ChatMessage) :=
  optionTraverse parseMsgItemJson items

/-- Outcome of a continue request at the HTTP boundary: a 4xx JSON
response, an uncaught `TypeError` (surfaced by the framework as a 500
response — no stream, no generation call, no tool run), or the streamed
events with the executed-call log. -/
inductive ContinueHttpOutcome where
  | reject (status : Nat) (error : String)
  | crash
  | stream (events : List StreamEvent) (executed : List (String × String))
  deriving Repr, DecidableEq

def ContinueOutcome.toHttp : ContinueOutcome → ContinueHttpOutcome
  | .reject s e => .reject s e
  | .stream evs ex => .stream evs ex

/-- Model of `POST /api/agent/stream/continue` after body validation and rate
limiting, at the full decode boundary: `decoded = none` models a token on
which the base64 decode or `JSON.parse` throws (caught, 400); every other
failure of structural well-formedness escapes the try/catch as an uncaught
`TypeError` (`crash`).  On a well-shaped payload this agrees with
`continueRoute` (`continueRouteJson_coherent`). -/
def continueRouteJson (decoded : Option DecodedJson) (approved : List String)
    (exec : String → String → String) (gen : GenOutcome) :
    ContinueHttpOutcome :=
  match decoded with
  | none => .reject 400 "Invalid continuation payload."
  | some .jsNull => .crash
  | some .nonObjectValue => .crash
  | some (.obj .notArrayOrMissing _) => .crash
  | some (.obj (.array items) params) =>
    match parseSerializedMessagesJson items with
    | none => .crash
    | some msgs =>
      match lastPendingCheck msgs with
      | none => .reject 400 "Continuation has no pending tool calls."
      | some tcs =>
        let res := resolvePending tcs approved exec
        let msgs1 := msgs ++ res.appended
        let streamed := continueStreamEvents exec params msgs1 gen
        .stream streamed.1 (res.executed ++ streamed.2)

/-- The embedding of a well-shaped serialized message into the arbitrary
decoded-JSON model: every field present and well-typed, with `tool_calls`
a well-formed array when present. -/
def RawMsg.toJson (r : RawMsg) : MsgItemJson :=
  .item
    { role := some r.role
      content := r.content
      tool_calls :=
        match r.tool_calls with
        | none => .missingOrFalsyLength
        | some tcs => .array (tcs.map ToolCallItemJson.ok)
      tool_call_id := r.tool_call_id }

/-! ## `POST /api/agent/stream` (fresh turn, fourth document of
`src/unnamed/part_003`)

The fresh-turn orchestrator: an initial "Thinking…" step, then a
generate/tool-run loop bounded by `maxToolRounds = 10`.  The successive
generation outcomes enter as the oracle `g` (round index ↦ outcome), the
tool dispatcher as `exec` (again absorbing the defensive argument parse).
Note that this route imports only `AGENT_TOOLS, executeTool` — every
proposed tool call is executed immediately, and the `StreamEvent` union
of this route has no `pending_tool_calls` member. -/

/-- Result of the fresh-turn orchestrator: emitted events, the executed
tool calls in order, and how many generation rounds ran. -/
structure AgentResult where
  events : List StreamEvent
  executed : List (String × String)
  gens : Nat
  deriving Repr, DecidableEq

/-- Events and execution log of one tool batch
(`src/unnamed/part_003:302-319`): for every call, a `step …​ active`
event, execution via the dispatcher, a `tool` message push (not tracked
here) and a `step … done` event. -/
def agentToolBatch (exec : String → String → String) :
    List ToolCall → List StreamEvent × List (String × String)
  | [] => ([], [])
  | tc :: rest =>
    let tail := agentToolBatch exec rest
    (.step tc.name ("Running " ++ tc.name ++ "…") .active ::
      .step tc.name tc.name .done :: tail.1,
      (tc.name, tc.arguments) :: tail.2)

/-- The `while (round < maxToolRounds)` loop
(`src/unnamed/part_003:283-328`), with `fuel` the remaining rounds and `i`
the index of the next generation call; when the fuel runs out the trailing
`if (!sentFinal) sendDone(lastContent)` fires. -/
def agentLoop (g : Nat → GenOutcome) (exec : String → String → String) :
    Nat → Nat → String → AgentResult
  | 0, _, lastContent => { events := [.done (agentDoneText lastContent)], executed := [], gens := 0 }
  | fuel + 1, i, _ =>
    match g i with
    | .throwErr m => { events := [.error m], executed := [], gens := 1 }
    | .noMessage => { events := [.error "No message in response."], executed := [], gens := 1 }
    | .msg content tcs =>
      let lastContent := content.getD ""
      if tcs.length ≠ 0 then
        let batch := agentToolBatch exec tcs
        let tail := agentLoop g exec fuel (i + 1) lastContent
        { events := batch.1 ++ tail.events
          executed := batch.2 ++ tail.executed
          gens := tail.gens + 1 }
      else { events := [.done (agentDoneText lastContent)], executed := [], gens := 1 }

/-- Model of `POST /api/agent/stream` after body validation and rate limiting. -/
def agentStream (g : Nat → GenOutcome) (exec : String → String → String) :
    AgentResult :=
  let inner := agentLoop g exec 10 0 ""
  { inner with events := .step "agent" "Thinking…" .active :: inner.events }

/-! ## `POST /api/hr/stream` (`src/app/api/hr/stream/route.ts`)

The HR compliance stream: the events of the OpenAI Responses stream enter
as an explicit list, a thrown iteration error as `tailErr`, and the
non-streaming fallback request (made only when the accumulated text is
empty) as the oracle value `fallback` (its trimmed `output_text`, `none`
when the request fails or has no text). -/

/-- The Responses-stream events distinguished by the `switch` of the route
(`src/app/api/hr/stream/route.ts:189-225`); `other` covers the default
branch and any event whose payload field fails its `typeof` check. -/
inductive RespEvent where
  | webSearching
  | webInProgress
  | webCompleted
  | outputTextDelta (delta : String)
  | outputTextDone (text : String)
  | completed (output_text : Option String)
  | respDone
  | failed (message : Option String)
  | other
  deriving Repr, DecidableEq

def DISCLAIMER : String := "Not legal advice."

/-- Model of `sendDone` of the HR route (`src/app/api/hr/stream/route.ts:105-115`):
trim, then append the fixed disclaimer unless already present; an
empty-after-trim text becomes a fixed diagnostic. -/
def hrDoneText (text : String) : String :=
  if jsTrim text ≠ "" then
    if text.endsWith DISCLAIMER then jsTrim text
    else jsTrim text ++ "\n\n" ++ DISCLAIMER
  else
    "No text received from OpenAI stream. Check OPENAI_API_KEY, OPENAI_MODEL, and Vercel function duration (Settings → Functions)." ++
      "\n\n" ++ DISCLAIMER

/-- The `for await` event loop: returns the emitted events, the
accumulated text, and whether a `response.failed` event ended the request
(its `error` terminal is then already in the event list). -/
def hrLoop (acc : String) : List RespEvent → List StreamEvent × String × Bool
  | [] => ([], acc, false)
  | e :: rest =>
    match e with
    | .webSearching =>
      let t := hrLoop acc rest
      (.step "web_search" "Searching the web for current compliance information…" .active :: t.1, t.2)
    | .webInProgress =>
      let t := hrLoop acc rest
      (.step "web_search" "Reading sources…" .active :: t.1, t.2)
    | .webCompleted =>
      let t := hrLoop acc rest
      (.step "web_search" "Found relevant sources" .done :: t.1, t.2)
    | .outputTextDelta d =>
      let t := hrLoop (acc ++ d) rest
      (.text d :: t.1, t.2)
    | .outputTextDone txt => hrLoop (acc ++ txt) rest
    | .completed ot =>
      match ot with
      | some txt => if jsTrim txt ≠ "" then hrLoop (jsTrim txt) rest else hrLoop acc rest
      | none => hrLoop acc rest
    | .respDone => hrLoop acc rest
    | .failed m => ([.error (m.getD "Model request failed.")], acc, true)
    | .other => hrLoop acc rest

/-- The streamed part of `POST /api/hr/stream`: initial router step, event
loop, optional mid-stream exception (`tailErr`), then the empty-text
fallback and the terminal `done`. -/
def hrStream (events : List RespEvent) (tailErr : Option String)
    (fallback : Option String) (isOnboarding : Bool) : List StreamEvent :=
  let routerStep : StreamEvent :=
    .step "router" (if isOnboarding then "Onboarding…" else "Connecting…") .active
  let r := hrLoop "" events
  let emitted := r.1
  let acc := r.2.1
  let failedStop := r.2.2
  if failedStop then routerStep :: emitted
  else
    match tailErr with
    | some m => routerStep :: emitted ++ [.error m]
    | none =>
      let text := jsTrim acc
      if text = "" then
        let text2 :=
          match fallback with
          | some ft => if jsTrim ft ≠ "" then jsTrim ft else text
          | none => text
        routerStep :: emitted ++
          [.step "fallback" "Getting response…" .active,
            .done (hrDoneText (if text2 = "" then "No response." else text2))]
      else routerStep :: emitted ++ [.done (hrDoneText text)]

/-- Concatenation of the `delta` fields of the `text` events of an emitted
stream, in emission order. -/
def textConcat : List StreamEvent → String
  | [] => ""
  | .text d :: rest => d ++ textConcat rest
  | _ :: rest => textConcat rest

/-- Responses-stream events that carry text only through
`response.output_text.delta` (no `output_text.done` duplication, no
`response.completed` override, no failure). -/
def deltaOnly : RespEvent → Bool
  | .outputTextDone _ => false
  | .completed _ => false
  | .failed _ => false
  | _ => true

/-- The text of a delta-only stream. -/
def deltaConcat : List RespEvent → String
  | [] => ""
  | .outputTextDelta d :: rest => d ++ deltaConcat rest
  | _ :: rest => deltaConcat rest

def GenOutcome.hasToolCalls : GenOutcome → Bool
  | .msg _ tcs => !tcs.isEmpty
  | _ => false

/-- The `lastContent` a round records: `typeof msg.content === "string" ?
msg.content : ""`. -/
def GenOutcome.contentStr : GenOutcome → String
  | .msg c _ => c.getD ""
  | _ => ""

def StreamEvent.isPending : StreamEvent → Bool
  | .pending_tool_calls _ _ => true
  | _ => false

/-! ## Claims -/

/-- C2: the approval predicate is a pure static partition of tool
names: `toolRequiresApproval` returns true for exactly
send_outreach, schedule_interview and update_ats, and false for every
other known tool name and for any unknown name. -/
theorem c2_toolRequiresApproval_partition :
    (toolRequiresApproval "send_outreach" = true ∧
      toolRequiresApproval "schedule_interview" = true ∧
      toolRequiresApproval "update_ats" = true) ∧
    (toolRequiresApproval "search_candidates" = false ∧
      toolRequiresApproval "screen_resume" = false ∧
      toolRequiresApproval "get_sourcing_workflow" = false) ∧
    (∀ name : String, name ≠ "send_outreach" → name ≠ "schedule_interview" →
      name ≠ "update_ats" → toolRequiresApproval name = false) := by
  refine ⟨by decide, by decide, ?_⟩
  intro name h1 h2 h3
  simp [toolRequiresApproval, TOOLS_REQUIRING_APPROVAL, h1, h2, h3]

/-- Witness for C2, at the unknown name `unknown_tool`. -/
theorem c2_witness : toolRequiresApproval "unknown_tool" = false :=
  c2_toolRequiresApproval_partition.2.2 "unknown_tool"
    (by decide) (by decide) (by decide)

/-- C7: without a document, classification returns
`general_hr_assistant` for every message, every history and every LLM
fallback behaviour — the fallback tier is never consulted and document
presence is a necessary precondition for the specialized
compliance-family agents. -/
theorem c7_no_document_general_hr :
    ∀ (llm : String → List HistMsg → Bool → RouterResult)
      (message : String) (history : List HistMsg),
      chooseAgent llm message history false =
        { agent := .general_hr_assistant, reason := none,
          required_questions := none } ∧
      heuristics message false = some .general_hr_assistant := by
  intro llm message history
  exact ⟨rfl, rfl⟩

set_option maxRecDepth 16384 in
/-- C10: for every argument mapping and every `Math.random()` draw
`q ∈ [0, 1)`, the `screen_resume` stub scores in `[60, 94]`, although the
declared tool description promises a score in 0-100. -/
theorem c10_screen_resume_score :
    (∀ (args : ScreenResumeArgs) (q : ℚ), 0 ≤ q → q < 1 →
      60 ≤ (screenResume args q).score ∧ (screenResume args q).score ≤ 94) ∧
    jsIncludes screenResumeDescription "score 0-100" = true := by
  constructor
  · intro args q hq0 hq1
    have h35 : (0 : ℚ) ≤ q * 35 := by positivity
    have hlt : q * 35 < 35 := by nlinarith
    have hfl0 : (0 : ℤ) ≤ ⌊q * 35⌋ := Int.floor_nonneg.mpr h35
    have hfl1 : ⌊q * 35⌋ < 35 := by
      have := Int.floor_lt.mpr (by push_cast; linarith : q * 35 < ((35 : ℤ) : ℚ))
      exact this
    constructor
    · simp only [screenResume]
      omega
    · simp only [screenResume]
      omega
  · decide

/-- Witness for C10, at the empty argument mapping and `q = 1/2`
(score `77`). -/
theorem c10_witness :
    60 ≤ (screenResume {} (1 / 2)).score ∧
      (screenResume {} (1 / 2)).score ≤ 94 :=
  c10_screen_resume_score.1 {} (1 / 2) (by norm_num) (by norm_num)

theorem parse_serialize_message (m : ChatMessage) (hm : msgWF m = true) :
    parseSerializedMessage (serializableMessage m) = m := by
  cases m with
  | system c => simp [serializableMessage, parseSerializedMessage]
  | user c => simp [serializableMessage, parseSerializedMessage]
  | assistant c tcs =>
    cases tcs with
    | none =>
      simp only [msgWF] at hm
      obtain ⟨s, rfl⟩ := Option.isSome_iff_exists.mp hm
      simp [serializableMessage, parseSerializedMessage]
    | some l =>
      cases l with
      | nil => simp [msgWF] at hm
      | cons t ts =>
        have hl : (t :: ts).length ≠ 0 := by simp
        simp [serializableMessage, parseSerializedMessage, hl]
  | tool id c => simp [serializableMessage, parseSerializedMessage]

/-- C3: serializing a paused transcript into a continuation token and
immediately deserializing it is the identity on every transcript the
orchestrator can produce — every role, content, and tool-call id, name and
argument string is preserved.  (The base64/JSON envelope of the token is a
reversible encoding of the structured payload and is modelled as such.) -/
theorem c3_continuation_roundtrip (ms : List ChatMessage)
    (h : transcriptWF ms = true) :
    parseSerializedMessages (serializableMessages ms) = ms := by
  induction ms with
  | nil => rfl
  | cons m rest ih =>
    rw [transcriptWF, List.all_cons, Bool.and_eq_true] at h
    have htail := ih h.2
    simp only [serializableMessages, parseSerializedMessages, List.map_cons,
      List.map_map] at htail ⊢
    rw [parse_serialize_message m h.1, htail]

/-- Witness for C3: a transcript containing every producible message
shape. -/
theorem c3_witness :
    parseSerializedMessages (serializableMessages
      [.system "You are a recruiting agent.",
        .user "Reach out to Jane.",
        .assistant (some "On it.") none,
        .assistant none
          (some [⟨"call_1", "send_outreach", "\x7b\"candidate_email\":\"jane@example.com\"\x7d"⟩]),
        .tool "call_1" "\x7b\"status\":\"simulated\"\x7d"]) =
      [.system "You are a recruiting agent.",
        .user "Reach out to Jane.",
        .assistant (some "On it.") none,
        .assistant none
          (some [⟨"call_1", "send_outreach", "\x7b\"candidate_email\":\"jane@example.com\"\x7d"⟩]),
        .tool "call_1" "\x7b\"status\":\"simulated\"\x7d"] :=
  c3_continuation_roundtrip _ (by decide)

/-- On the well-shaped layer, the reject categories the route does handle:
an undecodable or non-JSON token, an empty decoded transcript, and a
transcript whose last message is not an assistant message with a non-empty
`tool_calls` list all yield a 400 reject independent of the generation and
dispatcher oracles.  (This is only half of spec §4.4: a JSON-decodable but
ill-*shaped* payload instead crashes the handler — see
`c4_crash_on_structurally_invalid_payload`.) -/
theorem continueRoute_reject_of_invalid :
    (∀ (approved : List String) (exec : String → String → String)
      (gen : GenOutcome),
      continueRoute none approved exec gen =
        .reject 400 "Invalid continuation payload.") ∧
    (∀ (params : AgentParams) (approved : List String)
      (exec : String → String → String) (gen : GenOutcome),
      continueRoute (some ⟨[], params⟩) approved exec gen =
        .reject 400 "Continuation has no pending tool calls.") ∧
    (∀ (payload : ContinuationPayload) (approved : List String)
      (exec : String → String → String) (gen : GenOutcome),
      lastPendingCheck (parseSerializedMessages payload.messages) = none →
      continueRoute (some payload) approved exec gen =
        .reject 400 "Continuation has no pending tool calls.") := by
  refine ⟨fun _ _ _ => rfl, fun _ _ _ _ => rfl, ?_⟩
  intro payload approved exec gen h
  simp [continueRoute, h]

theorem traverse_toCall_map_ok (tcs : List ToolCall) :
    optionTraverse ToolCallItemJson.toCall (tcs.map ToolCallItemJson.ok) =
      some tcs := by
  induction tcs with
  | nil => rfl
  | cons tc rest ih =>
    simp [optionTraverse, ToolCallItemJson.toCall, ih]

theorem parseMsgItemJson_toJson (r : RawMsg) :
    parseMsgItemJson r.toJson = some (parseSerializedMessage r) := by
  by_cases h1 : r.role = "system"
  · simp [RawMsg.toJson, parseMsgItemJson, parseSerializedMessage, h1]
  · by_cases h2 : r.role = "user"
    · simp [RawMsg.toJson, parseMsgItemJson, parseSerializedMessage, h1, h2]
    · by_cases h3 : r.role = "assistant"
      · cases htc : r.tool_calls with
        | none =>
          simp [RawMsg.toJson, parseMsgItemJson, parseSerializedMessage,
            h1, h2, h3, htc]
        | some tcs =>
          by_cases hl : tcs.length ≠ 0
          · simp [RawMsg.toJson, parseMsgItemJson, parseSerializedMessage,
              h1, h2, h3, htc, hl, traverse_toCall_map_ok]
          · simp [RawMsg.toJson, parseMsgItemJson, parseSerializedMessage,
              h1, h2, h3, htc, hl]
      · by_cases h4 : r.role = "tool"
        · simp [RawMsg.toJson, parseMsgItemJson, parseSerializedMessage,
            h1, h2, h3, h4]
        · simp [RawMsg.toJson, parseMsgItemJson, parseSerializedMessage,
            h1, h2, h3, h4]

theorem parseSerializedMessagesJson_toJson (raw : List RawMsg) :
    parseSerializedMessagesJson (raw.map RawMsg.toJson) =
      some (parseSerializedMessages raw) := by
  induction raw with
  | nil => rfl
  | cons r rest ih =>
    simp only [parseSerializedMessagesJson, List.map_cons, optionTraverse,
      parseMsgItemJson_toJson r] at *
    simp [ih, parseSerializedMessages]

/-- On a payload of the exact shape the orchestrator serializes, the full
decode-boundary model agrees with the well-shaped core `continueRoute`. -/
theorem continueRouteJson_coherent (payload : ContinuationPayload)
    (approved : List String) (exec : String → String → String)
    (gen : GenOutcome) :
    continueRouteJson
        (some (.obj (.array (payload.messages.map RawMsg.toJson))
          payload.params)) approved exec gen =
      (continueRoute (some payload) approved exec gen).toHttp := by
  simp only [continueRouteJson, parseSerializedMessagesJson_toJson,
    continueRoute]
  cases hcheck : lastPendingCheck (parseSerializedMessages payload.messages) with
  | none => simp [hcheck, ContinueOutcome.toHttp]
  | some tcs => simp [hcheck, ContinueOutcome.toHttp]

/-- C4 fails on the code (code bug): only the base64 decode and
`JSON.parse` are guarded (`src/unnamed/part_000:232-237`), so a resume
request whose token is JSON-decodable but *not well-formed structured
data* — `base64("\x7b\x7d")` (no `messages` array), `base64("null")`,
`base64("\x7b\"messages\":5\x7d")`, or a decoded assistant message whose
`tool_calls` is a truthy non-array — makes the handler throw an uncaught
`TypeError` at `payload.params` (line 240), `raw.map` (line 161, reached
from line 243) or `toolCalls.map` (line 174), and the endpoint answers
with a 500 crash instead of the 400 validation error the claim and spec
§4.4 ("never a crash") require.  The generation capability is still never
invoked and no tool runs on these paths, and a token the decode itself
rejects does get the 400.  This theorem evaluates the model at the failing
inputs. -/
theorem c4_crash_on_structurally_invalid_payload :
    (∀ (approved : List String) (exec : String → String → String)
      (gen : GenOutcome),
      continueRouteJson (some (.obj .notArrayOrMissing {})) approved exec gen =
        .crash) ∧
    (∀ (approved : List String) (exec : String → String → String)
      (gen : GenOutcome),
      continueRouteJson (some .jsNull) approved exec gen = .crash) ∧
    (∀ (approved : List String) (exec : String → String → String)
      (gen : GenOutcome),
      continueRouteJson
        (some (.obj (.array
          [.item ⟨some "assistant", none, .truthyNonArray, none⟩]) {}))
        approved exec gen = .crash) ∧
    (∀ (approved : List String) (exec : String → String → String)
      (gen : GenOutcome),
      continueRouteJson none approved exec gen =
        .reject 400 "Invalid continuation payload.") ∧
    (∀ (params : AgentParams) (approved : List String)
      (exec : String → String → String) (gen : GenOutcome),
      continueRouteJson (some (.obj (.array []) params)) approved exec gen =
        .reject 400 "Continuation has no pending tool calls.") := by
  exact ⟨fun _ _ _ => rfl, fun _ _ _ => rfl, fun _ _ _ => rfl,
    fun _ _ _ => rfl, fun _ _ _ _ => rfl⟩

/-- C6 (amended): on resume, the pending-call resolution loop resolves
only the approval-requiring calls of the decoded last assistant message —
executing the approved ones and recording a decline notice for the rest —
while calls that do **not** require approval are skipped entirely: they
are neither executed nor answered with a tool message.  (The claim as
stated — that non-approval calls are executed defensively — fails;
see the counterexample.) -/
theorem c6_resolve_skips_non_approval :
    ∀ (tcs : List ToolCall) (approved : List String)
      (exec : String → String → String),
      (resolvePending tcs approved exec).appended =
        (tcs.filter fun tc => toolRequiresApproval tc.name).map
          (fun tc => ChatMessage.tool tc.id
            (if approved.contains tc.id then exec tc.name tc.arguments
              else declineNotice)) ∧
      (resolvePending tcs approved exec).executed =
        (tcs.filter fun tc =>
            toolRequiresApproval tc.name && approved.contains tc.id).map
          (fun tc => (tc.name, tc.arguments)) := by
  intro tcs approved exec
  induction tcs with
  | nil => exact ⟨rfl, rfl⟩
  | cons tc rest ih =>
    by_cases hreq : toolRequiresApproval tc.name
    · by_cases happ : tc.id ∈ approved
      · simp [resolvePending, hreq, happ, List.filter_cons, ih.1, ih.2]
      · simp [resolvePending, hreq, happ, List.filter_cons, ih.1, ih.2]
    · simp [resolvePending, hreq, List.filter_cons, ih.1, ih.2]

/-- Counterexample to C6 as stated: resuming over a last assistant message
whose single pending call is the non-approval `search_candidates` executes
nothing and appends no tool message at all, where the claim requires the
call to be executed and its result appended. -/
theorem c6_counterexample :
    resolvePending [⟨"call_1", "search_candidates", "\x7b\x7d"⟩]
        ["call_1"] (fun _ _ => "\x7b\"candidates\":[]\x7d") =
      { executed := [], appended := [] } := by
  decide

set_option maxRecDepth 16384 in
/-- C1 fails on the code (code bug): on a fresh `/api/agent/stream`
turn whose first generation round proposes the approval-requiring
`send_outreach`, the route executes the call immediately via the
dispatcher, emits plain `step` events for it, and terminates with `done` —
it never withholds the call and never emits `pending_tool_calls` (the
fresh route has no approval gate at all; the split exists only in the
continue route).  This theorem evaluates the model at that failing
input. -/
theorem c1_agent_stream_ungated_execution :
    (agentStream
        (fun i => if i = 0 then
            .msg (some "Sending outreach")
              [⟨"call_1", "send_outreach",
                "\x7b\"candidate_email\":\"jane@example.com\"\x7d"⟩]
          else .msg (some "Email sent.") [])
        (fun _ _ => "\x7b\"status\":\"simulated\"\x7d")).executed =
      [("send_outreach", "\x7b\"candidate_email\":\"jane@example.com\"\x7d")] ∧
    (agentStream
        (fun i => if i = 0 then
            .msg (some "Sending outreach")
              [⟨"call_1", "send_outreach",
                "\x7b\"candidate_email\":\"jane@example.com\"\x7d"⟩]
          else .msg (some "Email sent.") [])
        (fun _ _ => "\x7b\"status\":\"simulated\"\x7d")).events =
      [.step "agent" "Thinking…" .active,
        .step "send_outreach" "Running send_outreach…" .active,
        .step "send_outreach" "send_outreach" .done,
        .done "Email sent."] := by
  constructor
  · decide
  · decide

theorem agentLoop_tools_step (g : Nat → GenOutcome)
    (exec : String → String → String) (fuel i : Nat) (lc : String)
    (c : Option String) (tcs : List ToolCall) (hg : g i = .msg c tcs)
    (hl : tcs.length ≠ 0) :
    agentLoop g exec (fuel + 1) i lc =
      { events := (agentToolBatch exec tcs).1 ++
          (agentLoop g exec fuel (i + 1) (c.getD "")).events
        executed := (agentToolBatch exec tcs).2 ++
          (agentLoop g exec fuel (i + 1) (c.getD "")).executed
        gens := (agentLoop g exec fuel (i + 1) (c.getD "")).gens + 1 } := by
  simp only [agentLoop, hg]
  rw [if_pos hl]

theorem agentLoop_gens_le (g : Nat → GenOutcome)
    (exec : String → String → String) :
    ∀ (fuel i : Nat) (lc : String),
      (agentLoop g exec fuel i lc).gens ≤ fuel := by
  intro fuel
  induction fuel with
  | zero => intro i lc; simp [agentLoop]
  | succ n ih =>
    intro i lc
    cases hg : g i with
    | throwErr m => simp [agentLoop, hg]
    | noMessage => simp [agentLoop, hg]
    | msg c tcs =>
      by_cases hl : tcs.length ≠ 0
      · rw [agentLoop_tools_step g exec n i lc c tcs hg hl]
        have := ih (i + 1) (c.getD "")
        simp only []
        omega
      · simp [agentLoop, hg, hl]

theorem getLast?_cons_of_some {α : Type} (a : α) (l : List α) (e : α)
    (h : l.getLast? = some e) : (a :: l).getLast? = some e := by
  cases l with
  | nil => simp at h
  | cons b t => rw [List.getLast?_cons_cons]; exact h

theorem agentLoop_last_all_calls (g : Nat → GenOutcome)
    (exec : String → String → String)
    (hall : ∀ j, (g j).hasToolCalls = true) :
    ∀ (fuel i : Nat) (lc : String), 1 ≤ fuel →
      (agentLoop g exec fuel i lc).events.getLast? =
        some (.done (agentDoneText ((g (i + fuel - 1)).contentStr))) := by
  intro fuel
  induction fuel with
  | zero => intro i lc h; omega
  | succ n ih =>
    intro i lc _
    cases hg : g i with
    | throwErr m => have := hall i; rw [hg] at this; simp [GenOutcome.hasToolCalls] at this
    | noMessage => have := hall i; rw [hg] at this; simp [GenOutcome.hasToolCalls] at this
    | msg c tcs =>
      have htc := hall i
      rw [hg] at htc
      simp only [GenOutcome.hasToolCalls, Bool.not_eq_true',
        List.isEmpty_eq_false] at htc
      have hl : tcs.length ≠ 0 := by
        cases tcs with
        | nil => simp at htc
        | cons a t => simp
      cases n with
      | zero =>
        rw [agentLoop_tools_step g exec 0 i lc c tcs hg hl]
        simp only []
        rw [List.getLast?_append_of_ne_nil _ (by simp [agentLoop])]
        simp [agentLoop, hg, GenOutcome.contentStr]
      | succ m =>
        rw [agentLoop_tools_step g exec (m + 1) i lc c tcs hg hl]
        simp only []
        have htail := ih (i + 1) (c.getD "") (by omega)
        rw [List.getLast?_append_of_ne_nil _ ?hne]
        case hne =>
          intro hnil
          rw [hnil] at htail
          simp at htail
        have hidx : i + 1 + (m + 1) - 1 = i + (m + 1 + 1) - 1 := by omega
        rw [htail, hidx]

/-- C8: the fresh-turn orchestrator runs at most 10 generation rounds,
and when the generation capability proposes tool calls on every round the
turn still terminates after the 10th round with a terminal `done` event
carrying the text the last round produced. -/
theorem c8_agent_loop_bounded :
    ∀ (g : Nat → GenOutcome) (exec : String → String → String),
      (agentStream g exec).gens ≤ 10 ∧
      ((∀ j, (g j).hasToolCalls = true) →
        (agentStream g exec).events.getLast? =
          some (.done (agentDoneText ((g 9).contentStr)))) := by
  intro g exec
  constructor
  · exact agentLoop_gens_le g exec 10 0 ""
  · intro hall
    have h := agentLoop_last_all_calls g exec hall 10 0 "" (by omega)
    exact getLast?_cons_of_some _ _ _ h

/-- Witness for C8: a generation oracle that proposes a
`search_candidates` call on every round. -/
theorem c8_witness :
    (agentStream (fun _ => .msg (some "working")
        [⟨"c1", "search_candidates", "\x7b\x7d"⟩]) (fun _ _ => "r")).gens ≤ 10 ∧
      (agentStream (fun _ => .msg (some "working")
          [⟨"c1", "search_candidates", "\x7b\x7d"⟩])
        (fun _ _ => "r")).events.getLast? = some (.done "working") := by
  have h := c8_agent_loop_bounded
    (fun _ => .msg (some "working") [⟨"c1", "search_candidates", "\x7b\x7d"⟩])
    (fun _ _ => "r")
  refine ⟨h.1, ?_⟩
  have h2 := h.2 (fun j => rfl)
  rw [h2]
  decide

theorem terminalOnceLast_single (e : StreamEvent) (he : e.isTerminal = true) :
    terminalOnceLast [e] = true := by
  simp [terminalOnceLast, he]

theorem terminalOnceLast_cons (e : StreamEvent) (he : e.isTerminal = false)
    (evs : List StreamEvent) (h : terminalOnceLast evs = true) :
    terminalOnceLast (e :: evs) = true := by
  cases evs with
  | nil => simp [terminalOnceLast] at h
  | cons a t =>
    rw [terminalOnceLast] at h ⊢
    rw [List.getLast?_cons_cons]
    cases hlast : (a :: t).getLast? with
    | none => rw [hlast] at h; exact absurd h (by simp)
    | some x =>
      rw [hlast] at h
      simp only [Bool.and_eq_true] at h ⊢
      refine ⟨h.1, ?_⟩
      rw [List.dropLast_cons_of_ne_nil (by simp), List.all_cons]
      simp [he, h.2]

theorem terminalOnceLast_append_left (mid evs : List StreamEvent)
    (hmid : mid.all (fun e => !e.isTerminal) = true)
    (h : terminalOnceLast evs = true) :
    terminalOnceLast (mid ++ evs) = true := by
  induction mid with
  | nil => simpa using h
  | cons e rest ih =>
    rw [List.all_cons, Bool.and_eq_true] at hmid
    rw [List.cons_append]
    exact terminalOnceLast_cons e (by simpa using hmid.1) _ (ih hmid.2)

theorem agentToolBatch_nonterminal (exec : String → String → String) :
    ∀ tcs : List ToolCall,
      (agentToolBatch exec tcs).1.all (fun e => !e.isTerminal) = true := by
  intro tcs
  induction tcs with
  | nil => rfl
  | cons tc rest ih =>
    simp only [agentToolBatch, List.all_cons, Bool.and_eq_true]
    exact ⟨rfl, rfl, ih⟩

theorem agentLoop_terminalOnceLast (g : Nat → GenOutcome)
    (exec : String → String → String) :
    ∀ (fuel i : Nat) (lc : String),
      terminalOnceLast (agentLoop g exec fuel i lc).events = true := by
  intro fuel
  induction fuel with
  | zero =>
    intro i lc
    exact terminalOnceLast_single _ rfl
  | succ n ih =>
    intro i lc
    cases hg : g i with
    | throwErr m =>
      simp only [agentLoop, hg]
      exact terminalOnceLast_single _ rfl
    | noMessage =>
      simp only [agentLoop, hg]
      exact terminalOnceLast_single _ rfl
    | msg c tcs =>
      by_cases hl : tcs.length ≠ 0
      · rw [agentLoop_tools_step g exec n i lc c tcs hg hl]
        simp only []
        exact terminalOnceLast_append_left _ _
          (agentToolBatch_nonterminal exec tcs) (ih (i + 1) (c.getD ""))
      · simp only [agentLoop, hg]
        rw [if_neg hl]
        exact terminalOnceLast_single _ rfl

theorem continueToolPass_nonterminal (exec : String → String → String) :
    ∀ (tcs : List ToolCall) (msgs0 : List ChatMessage),
      (continueToolPass exec msgs0 tcs).events.all
        (fun e => !e.isTerminal) = true := by
  intro tcs
  induction tcs with
  | nil => intro msgs0; rfl
  | cons tc rest ih =>
    intro msgs0
    by_cases hreq : toolRequiresApproval tc.name
    · simp only [continueToolPass]
      rw [if_pos hreq]
      exact ih msgs0
    · simp only [continueToolPass]
      rw [if_neg hreq]
      simp only [List.all_cons, Bool.and_eq_true]
      exact ⟨rfl, rfl, ih _⟩

/-- Lifts the one-terminal invariant over the `reject`/`stream` split of a
continue-route outcome (a rejected request opens no stream at all). -/
def continueOk : ContinueOutcome → Bool
  | .reject _ _ => true
  | .stream evs _ => terminalOnceLast evs

theorem continueStreamEvents_terminalOnceLast
    (exec : String → String → String) (params : AgentParams)
    (msgs : List ChatMessage) (gen : GenOutcome) :
    terminalOnceLast (continueStreamEvents exec params msgs gen).1 = true := by
  cases gen with
  | throwErr m => exact terminalOnceLast_single _ rfl
  | noMessage => exact terminalOnceLast_single _ rfl
  | msg content tcs =>
    by_cases hl : tcs.length ≠ 0
    · simp only [continueStreamEvents]
      rw [if_pos hl]
      by_cases hp : (continueToolPass exec
          (msgs ++ [.assistant content (some tcs)]) tcs).approvalCalls.length ≠ 0
      · rw [if_pos hp]
        exact terminalOnceLast_append_left _ _
          (continueToolPass_nonterminal exec tcs _) (terminalOnceLast_single _ rfl)
      · rw [if_neg hp]
        exact terminalOnceLast_append_left _ _
          (continueToolPass_nonterminal exec tcs _) (terminalOnceLast_single _ rfl)
    · simp only [continueStreamEvents]
      rw [if_neg hl]
      exact terminalOnceLast_single _ rfl

theorem hrLoop_events_spec :
    ∀ (events : List RespEvent) (acc : String),
      ((hrLoop acc events).2.2 = false →
        (hrLoop acc events).1.all (fun e => !e.isTerminal) = true) ∧
      ((hrLoop acc events).2.2 = true →
        terminalOnceLast (hrLoop acc events).1 = true) := by
  intro events
  induction events with
  | nil =>
    intro acc
    exact ⟨fun _ => rfl, fun h => by simp [hrLoop] at h⟩
  | cons e rest ih =>
    intro acc
    cases e with
    | webSearching =>
      refine ⟨fun h => ?_, fun h => ?_⟩
      · simp only [hrLoop] at h ⊢
        simp only [List.all_cons, Bool.and_eq_true]
        exact ⟨rfl, (ih acc).1 h⟩
      · simp only [hrLoop] at h ⊢
        exact terminalOnceLast_cons _ (by simp [StreamEvent.isTerminal]) _ ((ih acc).2 h)
    | webInProgress =>
      refine ⟨fun h => ?_, fun h => ?_⟩
      · simp only [hrLoop] at h ⊢
        simp only [List.all_cons, Bool.and_eq_true]
        exact ⟨rfl, (ih acc).1 h⟩
      · simp only [hrLoop] at h ⊢
        exact terminalOnceLast_cons _ (by simp [StreamEvent.isTerminal]) _ ((ih acc).2 h)
    | webCompleted =>
      refine ⟨fun h => ?_, fun h => ?_⟩
      · simp only [hrLoop] at h ⊢
        simp only [List.all_cons, Bool.and_eq_true]
        exact ⟨rfl, (ih acc).1 h⟩
      · simp only [hrLoop] at h ⊢
        exact terminalOnceLast_cons _ (by simp [StreamEvent.isTerminal]) _ ((ih acc).2 h)
    | outputTextDelta d =>
      refine ⟨fun h => ?_, fun h => ?_⟩
      · simp only [hrLoop] at h ⊢
        simp only [List.all_cons, Bool.and_eq_true]
        exact ⟨rfl, (ih (acc ++ d)).1 h⟩
      · simp only [hrLoop] at h ⊢
        exact terminalOnceLast_cons _ (by simp [StreamEvent.isTerminal]) _ ((ih (acc ++ d)).2 h)
    | outputTextDone txt =>
      exact ⟨fun h => (ih (acc ++ txt)).1 h, fun h => (ih (acc ++ txt)).2 h⟩
    | completed ot =>
      cases ot with
      | some txt =>
        by_cases ht : jsTrim txt ≠ ""
        · refine ⟨fun h => ?_, fun h => ?_⟩
          · simp only [hrLoop, if_pos ht] at h ⊢
            exact (ih (jsTrim txt)).1 h
          · simp only [hrLoop, if_pos ht] at h ⊢
            exact (ih (jsTrim txt)).2 h
        · refine ⟨fun h => ?_, fun h => ?_⟩
          · simp only [hrLoop, if_neg ht] at h ⊢
            exact (ih acc).1 h
          · simp only [hrLoop, if_neg ht] at h ⊢
            exact (ih acc).2 h
      | none => exact ⟨fun h => (ih acc).1 h, fun h => (ih acc).2 h⟩
    | respDone => exact ⟨fun h => (ih acc).1 h, fun h => (ih acc).2 h⟩
    | failed m =>
      exact ⟨fun h => by simp [hrLoop] at h,
        fun _ => terminalOnceLast_single _ rfl⟩
    | other => exact ⟨fun h => (ih acc).1 h, fun h => (ih acc).2 h⟩

/-- C9: in every streamed request of each of the three streaming
routes — the HR compliance stream, the fresh-turn agent stream, and the
continue stream — exactly one terminal event (`done`, `error`, or
`pending_tool_calls`) is emitted, in final position, whatever the
generation stream, failures, tool calls or approval decisions. -/
theorem c9_exactly_one_terminal :
    (∀ (events : List RespEvent) (tailErr fallback : Option String)
      (isOnboarding : Bool),
      terminalOnceLast (hrStream events tailErr fallback isOnboarding) = true) ∧
    (∀ (g : Nat → GenOutcome) (exec : String → String → String),
      terminalOnceLast (agentStream g exec).events = true) ∧
    (∀ (decoded : Option ContinuationPayload) (approved : List String)
      (exec : String → String → String) (gen : GenOutcome),
      continueOk (continueRoute decoded approved exec gen) = true) := by
  refine ⟨?_, ?_, ?_⟩
  · intro events tailErr fallback isOnboarding
    have hspec := hrLoop_events_spec events ""
    by_cases hf : (hrLoop "" events).2.2 = true
    · simp only [hrStream, hf, if_pos]
      exact terminalOnceLast_cons _ (by simp [StreamEvent.isTerminal]) _ (hspec.2 hf)
    · have hf2 : (hrLoop "" events).2.2 = false := by
        cases hb : (hrLoop "" events).2.2
        · rfl
        · exact absurd hb hf
      have hmid := hspec.1 hf2
      simp only [hrStream, hf2, Bool.false_eq_true, if_neg, if_false]
      cases tailErr with
      | some m =>
        exact terminalOnceLast_cons _ (by simp [StreamEvent.isTerminal]) _
          (terminalOnceLast_append_left _ _ hmid (terminalOnceLast_single _ rfl))
      | none =>
        by_cases ht : jsTrim (hrLoop "" events).2.1 = ""
        · rw [if_pos ht]
          refine terminalOnceLast_cons _ (by simp [StreamEvent.isTerminal]) _
            (terminalOnceLast_append_left _ _ hmid ?_)
          exact terminalOnceLast_cons _ (by simp [StreamEvent.isTerminal]) _ (terminalOnceLast_single _ rfl)
        · rw [if_neg ht]
          exact terminalOnceLast_cons _ (by simp [StreamEvent.isTerminal]) _
            (terminalOnceLast_append_left _ _ hmid (terminalOnceLast_single _ rfl))
  · intro g exec
    exact terminalOnceLast_cons _ (by simp [StreamEvent.isTerminal]) _ (agentLoop_terminalOnceLast g exec 10 0 "")
  · intro decoded approved exec gen
    cases decoded with
    | none => rfl
    | some payload =>
      simp only [continueRoute]
      cases hcheck : lastPendingCheck (parseSerializedMessages payload.messages) with
      | none => rfl
      | some tcs =>
        simp only [continueOk]
        exact continueStreamEvents_terminalOnceLast exec payload.params _ gen

theorem string_empty_append (s : String) : "" ++ s = s := by
  cases s
  rfl

theorem string_append_empty (s : String) : s ++ "" = s := by
  cases s with
  | mk d => exact congrArg String.mk (List.append_nil d)

theorem string_append_assoc (a b c : String) :
    a ++ b ++ c = a ++ (b ++ c) := by
  cases a with
  | mk da =>
    cases b with
    | mk db =>
      cases c with
      | mk dc => exact congrArg String.mk (List.append_assoc da db dc)

theorem getLast?_append_singleton {α : Type} (l : List α) (a : α) :
    (l ++ [a]).getLast? = some a := by
  induction l with
  | nil => rfl
  | cons b t ih =>
    rw [List.cons_append]
    exact getLast?_cons_of_some b (t ++ [a]) a ih

theorem textConcat_cons_text (d : String) (rest : List StreamEvent) :
    textConcat (.text d :: rest) = d ++ textConcat rest := rfl

theorem textConcat_cons_step (i lb : String) (st : StepStatus)
    (rest : List StreamEvent) :
    textConcat (.step i lb st :: rest) = textConcat rest := rfl

theorem textConcat_cons_done (t : String) (rest : List StreamEvent) :
    textConcat (.done t :: rest) = textConcat rest := rfl

theorem textConcat_append (l1 l2 : List StreamEvent) :
    textConcat (l1 ++ l2) = textConcat l1 ++ textConcat l2 := by
  induction l1 with
  | nil => rw [List.nil_append, textConcat, string_empty_append]
  | cons e rest ih =>
    cases e with
    | text d =>
      show d ++ textConcat (rest ++ l2) = d ++ textConcat rest ++ textConcat l2
      rw [ih, string_append_assoc]
    | step id label status => exact ih
    | done t => exact ih
    | error t => exact ih
    | pending_tool_calls c k => exact ih

theorem hrLoop_deltaOnly :
    ∀ (events : List RespEvent) (acc : String),
      events.all deltaOnly = true →
      (hrLoop acc events).2.1 = acc ++ deltaConcat events ∧
      (hrLoop acc events).2.2 = false ∧
      textConcat (hrLoop acc events).1 = deltaConcat events := by
  intro events
  induction events with
  | nil =>
    intro acc _
    exact ⟨(string_append_empty acc).symm, rfl, rfl⟩
  | cons e rest ih =>
    intro acc h
    rw [List.all_cons, Bool.and_eq_true] at h
    cases e with
    | webSearching =>
      obtain ⟨ha, hf, ht⟩ := ih acc h.2
      exact ⟨ha, hf, by simpa [hrLoop, textConcat, deltaConcat] using ht⟩
    | webInProgress =>
      obtain ⟨ha, hf, ht⟩ := ih acc h.2
      exact ⟨ha, hf, by simpa [hrLoop, textConcat, deltaConcat] using ht⟩
    | webCompleted =>
      obtain ⟨ha, hf, ht⟩ := ih acc h.2
      exact ⟨ha, hf, by simpa [hrLoop, textConcat, deltaConcat] using ht⟩
    | outputTextDelta d =>
      obtain ⟨ha, hf, ht⟩ := ih (acc ++ d) h.2
      refine ⟨?_, hf, ?_⟩
      · rw [show (hrLoop acc (RespEvent.outputTextDelta d :: rest)).2.1 =
            (hrLoop (acc ++ d) rest).2.1 from rfl, ha, deltaConcat,
          String.append_assoc]
      · rw [show (hrLoop acc (RespEvent.outputTextDelta d :: rest)).1 =
            .text d :: (hrLoop (acc ++ d) rest).1 from rfl, textConcat, ht,
          deltaConcat]
    | outputTextDone txt => simp [deltaOnly] at h
    | completed ot => simp [deltaOnly] at h
    | respDone =>
      obtain ⟨ha, hf, ht⟩ := ih acc h.2
      exact ⟨ha, hf, by simpa [hrLoop, textConcat, deltaConcat] using ht⟩
    | failed m => simp [deltaOnly] at h
    | other =>
      obtain ⟨ha, hf, ht⟩ := ih acc h.2
      exact ⟨ha, hf, by simpa [hrLoop, textConcat, deltaConcat] using ht⟩

/-- C5 (amended): on the HR compliance stream, for every turn whose
model stream carries its text purely through `text` deltas (no
`response.output_text.done` duplicate, no `response.completed` override,
no failure), and whose concatenated deltas are non-empty after trimming,
the terminal `done` text equals the concatenation of the emitted `text`
deltas up to trimming and the fixed disclaimer suffix.  (The claim as
stated — over *every* streamed turn — fails when the stream carries an
`output_text.done` event, whose text is accumulated again without a `text`
event; see the counterexample.) -/
theorem c5_delta_concat_done (events : List RespEvent)
    (fallback : Option String) (isOnboarding : Bool)
    (h1 : events.all deltaOnly = true)
    (h2 : jsTrim (deltaConcat events) ≠ "") :
    textConcat (hrStream events none fallback isOnboarding) =
      deltaConcat events ∧
    (hrStream events none fallback isOnboarding).getLast? =
      some (.done (hrDoneText (jsTrim (deltaConcat events)))) ∧
    (hrDoneText (jsTrim (deltaConcat events)) = jsTrim (deltaConcat events) ∨
      hrDoneText (jsTrim (deltaConcat events)) =
        jsTrim (deltaConcat events) ++ "\n\n" ++ DISCLAIMER) := by
  obtain ⟨ha, hf, ht⟩ := hrLoop_deltaOnly events "" h1
  rw [string_empty_append] at ha
  have hacc : jsTrim (hrLoop "" events).2.1 = jsTrim (deltaConcat events) := by
    rw [ha]
  refine ⟨?_, ?_, ?_⟩
  · rw [hrStream]
    simp only [hf, Bool.false_eq_true, if_false]
    rw [hacc, if_neg h2, textConcat_append, textConcat_cons_step, ht,
      textConcat_cons_done]
    rw [show textConcat ([] : List StreamEvent) = "" from rfl]
    exact string_append_empty _
  · rw [hrStream]
    simp only [hf, Bool.false_eq_true, if_false]
    rw [hacc, if_neg h2]
    exact getLast?_append_singleton _ _
  · have hid : jsTrim (jsTrim (deltaConcat events)) = jsTrim (deltaConcat events) :=
      jsTrim_idem _
    by_cases he : (jsTrim (deltaConcat events)).endsWith DISCLAIMER
    · left
      rw [hrDoneText, if_pos (by rw [hid]; exact h2), if_pos he, hid]
    · right
      rw [hrDoneText, if_pos (by rw [hid]; exact h2), if_neg he, hid]

/-- Witness for C5 (amended), at a one-delta stream. -/
theorem c5_witness :
    textConcat (hrStream [.outputTextDelta "Hello"] none none false) =
      deltaConcat [.outputTextDelta "Hello"] ∧
    (hrStream [.outputTextDelta "Hello"] none none false).getLast? =
      some (.done (hrDoneText (jsTrim (deltaConcat [.outputTextDelta "Hello"])))) ∧
    (hrDoneText (jsTrim (deltaConcat [.outputTextDelta "Hello"])) =
        jsTrim (deltaConcat [.outputTextDelta "Hello"]) ∨
      hrDoneText (jsTrim (deltaConcat [.outputTextDelta "Hello"])) =
        jsTrim (deltaConcat [.outputTextDelta "Hello"]) ++ "\n\n" ++ DISCLAIMER) :=
  c5_delta_concat_done [.outputTextDelta "Hello"] none false
    (by decide) (by decide)

/-- Counterexample to C5 as stated: a stream that emits the delta `"a"`
and then a `response.output_text.done` event carrying `"a"` produces `text`
events concatenating to `"a"` but a terminal `done` text of
`"aa\n\nNot legal advice."` — not equal to the concatenation up to
trimming and the disclaimer suffix. -/
theorem c5_counterexample :
    textConcat (hrStream [.outputTextDelta "a", .outputTextDone "a"]
        none none false) = "a" ∧
    (hrStream [.outputTextDelta "a", .outputTextDone "a"]
        none none false).getLast? = some (.done "aa\n\nNot legal advice.") ∧
    ¬("aa\n\nNot legal advice." = jsTrim "a" ∨
      "aa\n\nNot legal advice." = jsTrim "a" ++ "\n\n" ++ DISCLAIMER) := by
  refine ⟨by decide, by decide, by decide⟩

end Seeknimbly
